import Mathlib

/-!
Verification development for the earthquake/tsunami on-air dashboard
(src/script.js).  The JavaScript core is shallowly embedded below:

* KanaLookup        : katakanaToHiragana, getKana           (script.js 9-15, 115-130)
* MunicipalityResolver : getMunicipality                    (script.js 287-338)
* EventAggregator   : tsunami-forecast map, intensity dedup (script.js 2940-3033)
* Event id          : digestMessage, processEarthquake      (script.js 271-277, 3133-3139)
* PaginationEngine  : fixed-bar greedy page split           (script.js 3844-3872)

JavaScript strings are modelled as Lean String (all characters that occur in
the program are in the basic multilingual plane, so the JS UTF-16 code-unit
view and the Lean character view agree); JS objects that may be absent are
modelled with Option; JS truthiness of a string is the test against the empty
string, and truthiness of a possibly-missing array is Option.isSome.
-/

/-! ## Generic string helpers (JS String.prototype operations, on character lists) -/

/-- JS startsWith on character lists: the first list is a prefix of the second. -/
def lcStartsWith : List Char → List Char → Bool
  | [], _ => true
  | _ :: _, [] => false
  | c :: cs, d :: ds => c == d && lcStartsWith cs ds

/-- JS includes on character lists: the first list occurs contiguously in the second. -/
def lcContains (sub : List Char) : List Char → Bool
  | [] => lcStartsWith sub []
  | c :: t => lcStartsWith sub (c :: t) || lcContains sub t

/-- JS endsWith on character lists. -/
def lcEndsWith (sub l : List Char) : Bool :=
  lcStartsWith sub.reverse l.reverse

/-- Characters that the JS regex dot refuses to match (line terminators). -/
def jsDotRejects (c : Char) : Bool :=
  c == '\n' || c == '\r' || c == '\u2028' || c == '\u2029'

/-- Tail of the list after the first occurrence of a character, if any
(JS indexOf + substring used for the generic prefecture-suffix strip). -/
def afterFirst (c : Char) : List Char → Option (List Char)
  | [] => none
  | x :: xs => if x == c then some xs else afterFirst c xs

/-- Inner loop of the anchored lazy regex fragment: scan for the first
character accepted by stop, failing on a line terminator.  Returns the
consumed characters (in order, stop character included) and the rest. -/
def lazyToGo (stop : Char → Bool) (acc : List Char) : List Char → Option (List Char × List Char)
  | [] => none
  | c :: cs =>
    if stop c then some ((c :: acc).reverse, cs)
    else if jsDotRejects c then none
    else lazyToGo stop (c :: acc) cs

/-- Anchored lazy match of one dot-plus-lazy group followed by one character
accepted by stop (the JS fragment dot plus lazy then a stop character): at
least one dot-matched character, then the earliest stop character. -/
def lazyTo (stop : Char → Bool) : List Char → Option (List Char × List Char)
  | [] => none
  | c :: cs => if jsDotRejects c then none else lazyToGo stop [c] cs

/-! ## KanaLookup (script.js 9-15, 115-130) -/

/-- katakanaToHiragana, script.js 9-15: shift every code point in the
katakana block U+30A1 to U+30F6 down by 0x60; all other characters pass
through unchanged. -/
def katakanaToHiragana (s : String) : String :=
  String.mk (s.data.map (fun c =>
    if 0x30A1 ≤ c.toNat && c.toNat ≤ 0x30F6 then Char.ofNat (c.toNat - 0x60) else c))

/-- One pass of the JS global regex replace that deletes a full-width
parenthesized group: after an opening full-width parenthesis, consume at
least one character lazily up to the earliest full-width closing parenthesis
(the regex dot refuses line terminators), and delete the whole group.
Structural recursion on a fuel bound: every step consumes at least one
character of the list, so any fuel at least the list length is exact. -/
def stripParenGo : Nat → List Char → List Char
  | 0, l => l
  | _ + 1, [] => []
  | fuel + 1, c :: rest =>
    if c == '（' then
      match lazyTo (fun d => d == '）') rest with
      | some (_, rest') => stripParenGo fuel rest'
      | none => c :: stripParenGo fuel rest
    else c :: stripParenGo fuel rest

def stripParenChars (l : List Char) : List Char :=
  stripParenGo l.length l

/-- String wrapper for stripParenChars (the replace call at script.js 128). -/
def stripParen (s : String) : String :=
  String.mk (stripParenChars s.data)

/-- Association-list lookup standing for a JS object used as a dictionary
(hasOwnProperty plus indexing). -/
def lookupAssoc (m : List (String × String)) (k : String) : Option String :=
  (m.find? (fun p => p.1 == k)).map Prod.snd

/-- The JS truthy-or chain on dictionary hits: a present, non-empty value
wins, otherwise fall through. -/
def truthyOr (a : Option String) (rest : String) : String :=
  match a with
  | some s => if s = "" then rest else s
  | none => rest

/-- The municipality segment that getKana extracts from a composite key:
split on underscores and take the second segment when one exists, else the
whole string (script.js 124-125). -/
def kanaLookupName (kanji : String) : String :=
  let parts := kanji.splitOn "_"
  if parts.length > 1 then parts.getD 1 "" else parts.getD 0 ""

/-- getKana, script.js 115-130.  manual is the user override table
MANUAL KANA DICT, dict is the base dictionary KANA DICT, both as
insertion-ordered association lists. -/
def getKana (manual dict : List (String × String)) (kanji : String) : String :=
  if kanji = "" then ""
  else
    match lookupAssoc manual kanji with
    | some v => v
    | none =>
      let municipality := kanaLookupName kanji
      let kana := truthyOr (lookupAssoc dict municipality)
        (truthyOr (lookupAssoc dict (stripParen municipality)) "")
      katakanaToHiragana kana

/-! ## MunicipalityResolver: getMunicipality (script.js 287-338)

The resolver reads only the key set of the base dictionary, in insertion
order, so it is parameterized by that key list.  Addresses are character
lists (the JS code works code unit by code unit). -/

/-- Stable insertion into a list sorted by decreasing length: skip entries
that are strictly longer, so entries of equal length keep their original
relative order (the JS sort with the comparator on lengths is stable). -/
def insertByLen (x : List Char) : List (List Char) → List (List Char)
  | [] => [x]
  | y :: ys => if y.length > x.length then y :: insertByLen x ys else x :: y :: ys

/-- Stable sort of the dictionary keys by decreasing length
(script.js 326). -/
def sortByLenDesc : List (List Char) → List (List Char)
  | [] => []
  | x :: xs => insertByLen x (sortByLenDesc xs)

/-- Direct dictionary containment test, script.js 292: the key occurs in the
address and either ends it or is followed by an ASCII space. -/
def directMatchKey (keys : List (List Char)) (addr : List Char) : Option (List Char) :=
  keys.find? (fun key =>
    lcContains key addr && (lcEndsWith key addr || lcContains (key ++ [' ']) addr))

/-- The four prefecture names with irregular suffixes tried when the
supplied prefecture is not a literal prefix (script.js 305). -/
def irregularPrefNames : List (List Char) :=
  ["東京都".data, "北海道".data, "京都府".data, "大阪府".data]

/-- Prefecture stripping, script.js 300-313: remove the supplied prefecture
name if it prefixes the address; otherwise strip any of the four irregular
prefecture names in order, then cut everything through the first generic
prefecture-suffix character if one occurs. -/
def stripPrefecture (pref addr : List Char) : List Char :=
  if lcStartsWith pref addr then addr.drop pref.length
  else
    let r := irregularPrefNames.foldl
      (fun r p => if lcStartsWith p r then r.drop p.length else r) addr
    match afterFirst '県' r with
    | some r' => r'
    | none => r

/-- Pattern 1, script.js 316: anchored lazy match of a city followed by a
ward (designated-city wards stay attached to the parent city). -/
def cityWardMatch (l : List Char) : Option (List Char) :=
  match lazyTo (fun c => c == '市') l with
  | none => none
  | some (p1, rest) =>
    match lazyTo (fun c => c == '区') rest with
    | none => none
    | some (p2, _) => some (p1 ++ p2)

/-- Pattern 2, script.js 320: anchored lazy match of a county followed by a
town or village. -/
def gunMatch (l : List Char) : Option (List Char) :=
  match lazyTo (fun c => c == '郡') l with
  | none => none
  | some (p1, rest) =>
    match lazyTo (fun c => c == '町' || c == '村') rest with
    | none => none
    | some (p2, _) => some (p1 ++ p2)

/-- Pattern 3, script.js 332: anchored lazy match up to the first generic
municipality suffix character. -/
def cityTownVillageMatch (l : List Char) : Option (List Char) :=
  (lazyTo (fun c => c == '市' || c == '区' || c == '町' || c == '村') l).map Prod.fst

/-- Longest dictionary-prefix match, script.js 326-329: first key of the
length-descending stable sort that prefixes the remaining address. -/
def forwardMatchKey (keys : List (List Char)) (l : List Char) : Option (List Char) :=
  (sortByLenDesc keys).find? (fun key => lcStartsWith key l)

/-- getMunicipality, script.js 287-338.  keys is the insertion-ordered key
set of the base dictionary.  The guard at script.js 288 substitutes the
literal placeholders for falsy (empty) inputs. -/
def getMunicipality (keys : List (List Char)) (addr pref : List Char) : List Char :=
  if addr = [] ∨ pref = [] then
    (if pref = [] then "不明".data else pref) ++ '_' ::
      (if addr = [] then "観測点名不明".data else addr)
  else
    match directMatchKey keys addr with
    | some k => pref ++ '_' :: k
    | none =>
      let remaining := stripPrefecture pref addr
      match cityWardMatch remaining with
      | some m => pref ++ '_' :: m
      | none =>
        match gunMatch remaining with
        | some m => pref ++ '_' :: m
        | none =>
          match forwardMatchKey keys remaining with
          | some k => pref ++ '_' :: k
          | none =>
            match cityTownVillageMatch remaining with
            | some m => pref ++ '_' :: m
            | none => pref ++ '_' :: addr

/-! ## EventAggregator, part 1: tsunami-forecast map (script.js 2940-2966)

A code-552 report carries an upstream correlation id and an optional list of
forecasts, each a grade tag and a coastal-area name (the JS access reads
the name out of the area object; reports in the processed domain carry it,
possibly empty, which is falsy and therefore skipped). -/

structure Forecast where
  grade : String
  areaName : String
deriving DecidableEq, Repr

structure TsunamiInfo where
  eventId : String
  forecasts : Option (List Forecast)
deriving DecidableEq, Repr

/-- The per-report detail stored in the map: one insertion-ordered name set
per grade plus the computed highest grade. -/
structure TsunamiDetail where
  majorWarning : List String
  warning : List String
  advisory : List String
  highestGrade : String
deriving DecidableEq, Repr

/-- JS Set.add: append when not already present (insertion order kept). -/
def addToSet (s : List String) (x : String) : List String :=
  if s.contains x then s else s ++ [x]

/-- One forecast of the grade-bucket accumulation of script.js 2948-2957: a
forecast counts only when its grade is one of the three bucket keys and its
area name is truthy (non-empty). -/
def bucketStep (acc : List String × List String × List String) (f : Forecast) :
    List String × List String × List String :=
  if f.areaName = "" then acc
  else if f.grade = "MajorWarning" then (addToSet acc.1 f.areaName, acc.2.1, acc.2.2)
  else if f.grade = "Warning" then (acc.1, addToSet acc.2.1 f.areaName, acc.2.2)
  else if f.grade = "Advisory" then (acc.1, acc.2.1, addToSet acc.2.2 f.areaName)
  else acc

/-- The grade buckets collected from one report's forecasts list. -/
def forecastBuckets (fs : List Forecast) : List String × List String × List String :=
  fs.foldl bucketStep ([], [], [])

/-- The detail built from one report, script.js 2948-2965, including the
highest-grade computation over the non-empty buckets. -/
def detailOfReport (fs : List Forecast) : TsunamiDetail :=
  let b := forecastBuckets fs
  { majorWarning := b.1
    warning := b.2.1
    advisory := b.2.2
    highestGrade :=
      if b.1 ≠ [] then "MajorWarning"
      else if b.2.1 ≠ [] then "Warning"
      else if b.2.2 ≠ [] then "Advisory"
      else "None" }

/-- JS Map.set on an insertion-ordered association list: overwrite in place
when the key exists, else append. -/
def mapSet {α : Type} (m : List (String × α)) (k : String) (v : α) : List (String × α) :=
  match m with
  | [] => [(k, v)]
  | (k', v') :: rest => if k' = k then (k, v) :: rest else (k', v') :: mapSet rest k v

/-- JS Map.get on an insertion-ordered association list. -/
def mapGet {α : Type} (m : List (String × α)) (k : String) : Option α :=
  match m with
  | [] => none
  | (k', v) :: rest => if k' = k then some v else mapGet rest k

/-- One report of the tsunami-details pass: a report without a forecasts
list is skipped (script.js 2945), otherwise the detail built from that
single report is stored under the report's correlation id, overwriting any
earlier entry for the same id (script.js 2965). -/
def tsunamiMapStep (m : List (String × TsunamiDetail)) (info : TsunamiInfo) :
    List (String × TsunamiDetail) :=
  match info.forecasts with
  | none => m
  | some fs => mapSet m info.eventId (detailOfReport fs)

/-- The tsunami-details map of script.js 2940-2966: one pass over the
code-552 reports in poll order. -/
def buildTsunamiDetailsMap (infos : List TsunamiInfo) : List (String × TsunamiDetail) :=
  infos.foldl tsunamiMapStep []

/-- Reference function for the last-write-wins reading: the forecasts list
of the last report carrying the given correlation id and a forecasts list. -/
def lastForecastsFor : List TsunamiInfo → String → Option (List Forecast)
  | [], _ => none
  | info :: rest, k =>
    match lastForecastsFor rest k with
    | some fs => some fs
    | none =>
      match info.forecasts with
      | none => none
      | some fs => if info.eventId = k then some fs else none

/-! ## EventAggregator, part 2: intensity-report dedup (script.js 2991-3033) -/

structure Hypocenter where
  name : Option String
  magnitude : Option Int
  depth : Option Int
deriving DecidableEq, Repr

structure Quake where
  time : Option String
  hypocenter : Option Hypocenter
  maxScale : Option Int
  domesticTsunami : Option String
deriving DecidableEq, Repr

structure ObsPoint where
  pref : String
  addr : String
  scale : Int
  isArea : Bool
deriving DecidableEq, Repr

structure Report where
  code : Nat
  earthquake : Option Quake
  points : Option (List ObsPoint)
  eventId : String
deriving DecidableEq, Repr

/-- The minimum-scale listing filter of script.js 2992-2994: code 551, an
earthquake object, a numeric maxScale of at least the configured minimum
(MIN LIST SCALE, 30). -/
def passesMinScaleFilter (r : Report) : Bool :=
  r.code == 551 &&
    (match r.earthquake with
     | some q => match q.maxScale with
       | some s => (30 : Int) ≤ s
       | none => false
     | none => false)

/-- The merge key of script.js 3000-3005: present exactly when the report
has a truthy event time and a truthy hypocenter name, in which case it is
the time and the name joined by an underscore. -/
def mergeKey? (r : Report) : Option String :=
  match r.earthquake with
  | none => none
  | some q =>
    match q.time, q.hypocenter with
    | some t, some h =>
      match h.name with
      | some n => if t = "" ∨ n = "" then none else some (t ++ "_" ++ n)
      | none => none
    | _, _ => none

/-- The underlying pair, for stating which reports the spec considers
identical: the event time and the epicenter name, under the same
presence conditions as the merge key. -/
def pairKey? (r : Report) : Option (String × String) :=
  match r.earthquake with
  | none => none
  | some q =>
    match q.time, q.hypocenter with
    | some t, some h =>
      match h.name with
      | some n => if t = "" ∨ n = "" then none else some (t, n)
      | none => none
    | _, _ => none

/-- Hypocenter adoption, script.js 3014-3017: when the incoming report has
a hypocenter, the existing magnitude is the minus-one sentinel or null, and
the incoming magnitude is neither, adopt the incoming hypocenter object
wholesale. -/
def adoptHypocenter (ex eq : Report) : Report :=
  match eq.earthquake with
  | some q2 =>
    match q2.hypocenter with
    | some h2 =>
      match ex.earthquake with
      | some q1 =>
        match q1.hypocenter with
        | some h1 =>
          if (h1.magnitude = some (-1) ∨ h1.magnitude = none) ∧
             (h2.magnitude ≠ some (-1) ∧ h2.magnitude ≠ none) then
            { ex with earthquake := some { q1 with hypocenter := some h2 } }
          else ex
        | none => ex
      | none => ex
    | none => ex
  | none => ex

/-- Maximum-intensity raise, script.js 3018-3021: raise the existing
maxScale when the incoming one is strictly greater (the JS comparison is
false when either side is undefined). -/
def raiseMaxScale (ex eq : Report) : Report :=
  match eq.earthquake, ex.earthquake with
  | some q2, some q1 =>
    (match q2.maxScale, q1.maxScale with
     | some a, some b =>
       if b < a then { ex with earthquake := some { q1 with maxScale := some a } } else ex
     | _, _ => ex)
  | _, _ => ex

/-- Domestic-tsunami overwrite, script.js 3022-3026: overwrite with the
incoming status when it differs (last write wins). -/
def overwriteTsunami (ex eq : Report) : Report :=
  match eq.earthquake, ex.earthquake with
  | some q2, some q1 =>
    if q2.domesticTsunami ≠ q1.domesticTsunami then
      { ex with earthquake := some { q1 with domesticTsunami := q2.domesticTsunami } }
    else ex
  | _, _ => ex

/-- The in-place field merge of script.js 3014-3026, run when the incoming
report does not trigger the wholesale points replacement. -/
def mergeInto (ex eq : Report) : Report :=
  overwriteTsunami (raiseMaxScale (adoptHypocenter ex eq) eq) eq

/-- One same-key merge step, script.js 3007-3026.  When the existing entry
has no points array and the incoming report has one, the map entry is
replaced by the incoming report object wholesale (script.js 3011-3013); the
in-place mutations the JS code then applies target the object that was just
evicted from the map, so the surviving entry is the incoming report
unchanged.  Otherwise the existing entry is merged in place. -/
def mergeOne (ex eq : Report) : Report :=
  if ex.points.isNone && eq.points.isSome then eq else mergeInto ex eq

/-- One iteration of the dedup loop of script.js 2998-3031 over the
insertion-ordered map of unique earthquakes. -/
def dedupStep (m : List (String × Report)) (eq : Report) : List (String × Report) :=
  match mergeKey? eq with
  | none => m
  | some k =>
    match mapGet m k with
    | none => m ++ [(k, eq)]
    | some ex => mapSet m k (mergeOne ex eq)

/-- The whole dedup pass of script.js 2996-3031, in fetch order. -/
def dedupeEarthquakes (rs : List Report) : List (String × Report) :=
  rs.foldl dedupStep []

/-- Keys of an insertion-ordered association list. -/
def keysOf {α : Type} (m : List (String × α)) : List String :=
  m.map Prod.fst

/-- Convenience projections used in the statements. -/
def maxScaleOf (r : Report) : Option Int :=
  match r.earthquake with
  | some q => q.maxScale
  | none => none

/-- The per-key report sequence that actually determines the surviving
event: all of them when the seed carries points or no follower does, and
otherwise the first points-carrying follower and everything after it (the
wholesale replacement of script.js 3011-3013 discards what was merged
before it). -/
def activeReports (r0 : Report) (rest : List Report) : List Report :=
  if r0.points.isSome then r0 :: rest
  else
    match rest.dropWhile (fun r => r.points.isNone) with
    | [] => r0 :: rest
    | r :: tail => r :: tail

/-- One step of the reference maximum over report maxScale values: a report
without a numeric maxScale is skipped, exactly as the JS greater-than
comparison against undefined never fires. -/
def maxScaleStep (acc : Option Int) (r : Report) : Option Int :=
  match maxScaleOf r with
  | some a =>
    match acc with
    | some b => some (max b a)
    | none => some a
  | none => acc

/-- Reference maximum of the maxScale values of a report list. -/
def maxScaleMax (rs : List Report) : Option Int :=
  rs.foldl maxScaleStep none

/-- Decidable statement that a report's event time contains no underscore
(the merge-key separator), phrased on the pair key. -/
def noUnderscoreTime (r : Report) : Bool :=
  match pairKey? r with
  | some (t, _) => !(t.data.contains '_')
  | none => true

/-- The survivor of the per-key merge fold, seeded by an optional existing
entry (the projection of the dedup map onto one key). -/
def foldKey (s : Option Report) (rs : List Report) : Option Report :=
  match s with
  | some e => some (rs.foldl mergeOne e)
  | none =>
    match rs with
    | [] => none
    | r :: rest => some (rest.foldl mergeOne r)

/-! ## PaginationEngine: the fixed-bar greedy page split (script.js 3844-3872)

The loop body at script.js 3849-3865 with the flush at 3866-3871,
abstracted over the item type and over the fitting test (the JS code calls
doesTextFitInTwoLines on the joined HTML of the tentative page; the test
is modelled as an arbitrary function of the tentative item list). -/

def paginateGo {α : Type} (fits : List α → Bool) : List α → List α → List (List α)
  | [], buf => if buf.isEmpty then [] else [buf]
  | x :: xs, buf =>
    let test := buf ++ [x]
    if !fits test && !buf.isEmpty then buf :: paginateGo fits xs [x]
    else paginateGo fits xs test

def paginate {α : Type} (fits : List α → Bool) (items : List α) : List (List α) :=
  paginateGo fits items []

/-! ## Stable event id: digestMessage (script.js 271-277) and the id part of
processEarthquake (script.js 3133-3139)

digestMessage calls the platform SHA-256 primitive on the UTF-8 encoding of
its argument and prints the digest bytes in two-digit lowercase hex.  The
primitive is embedded below from the FIPS 180-4 algorithm (the witness pins
the embedding to the standard test vector). -/

def utf8Bytes (c : Char) : List Nat :=
  let n := c.toNat
  if n < 0x80 then [n]
  else if n < 0x800 then [0xC0 ||| (n >>> 6), 0x80 ||| (n &&& 0x3F)]
  else if n < 0x10000 then
    [0xE0 ||| (n >>> 12), 0x80 ||| ((n >>> 6) &&& 0x3F), 0x80 ||| (n &&& 0x3F)]
  else
    [0xF0 ||| (n >>> 18), 0x80 ||| ((n >>> 12) &&& 0x3F),
     0x80 ||| ((n >>> 6) &&& 0x3F), 0x80 ||| (n &&& 0x3F)]

def strUtf8 (s : String) : List Nat :=
  (s.data.map utf8Bytes).flatten

def u32 (n : Nat) : Nat := n % 4294967296

def rotr32 (x n : Nat) : Nat := u32 ((x >>> n) ||| (x <<< (32 - n)))

def sigmaB0 (x : Nat) : Nat := (rotr32 x 2 ^^^ rotr32 x 13) ^^^ rotr32 x 22

def sigmaB1 (x : Nat) : Nat := (rotr32 x 6 ^^^ rotr32 x 11) ^^^ rotr32 x 25

def sigmaS0 (x : Nat) : Nat := (rotr32 x 7 ^^^ rotr32 x 18) ^^^ (x >>> 3)

def sigmaS1 (x : Nat) : Nat := (rotr32 x 17 ^^^ rotr32 x 19) ^^^ (x >>> 10)

def chFn (x y z : Nat) : Nat := (x &&& y) ^^^ ((x ^^^ 0xFFFFFFFF) &&& z)

def majFn (x y z : Nat) : Nat := ((x &&& y) ^^^ (x &&& z)) ^^^ (y &&& z)

def sha256K : List Nat :=
  [1116352408, 1899447441, 3049323471, 3921009573, 961987163,
   1508970993, 2453635748, 2870763221, 3624381080, 310598401,
   607225278, 1426881987, 1925078388, 2162078206, 2614888103,
   3248222580, 3835390401, 4022224774, 264347078, 604807628,
   770255983, 1249150122, 1555081692, 1996064986, 2554220882,
   2821834349, 2952996808, 3210313671, 3336571891, 3584528711,
   113926993, 338241895, 666307205, 773529912, 1294757372,
   1396182291, 1695183700, 1986661051, 2177026350, 2456956037,
   2730485921, 2820302411, 3259730800, 3345764771, 3516065817,
   3600352804, 4094571909, 275423344, 430227734, 506948616,
   659060556, 883997877, 958139571, 1322822218, 1537002063,
   1747873779, 1955562222, 2024104815, 2227730452, 2361852424,
   2428436474, 2756734187, 3204031479, 3329325298]

structure Sha256Digest where
  d0 : Nat
  d1 : Nat
  d2 : Nat
  d3 : Nat
  d4 : Nat
  d5 : Nat
  d6 : Nat
  d7 : Nat
deriving DecidableEq, Repr

def sha256Init : Sha256Digest :=
  ⟨1779033703, 3144134277, 1013904242, 2773480762,
   1359893119, 2600822924, 528734635, 1541459225⟩

/-- Padding of FIPS 180-4 section 5.1.1: a one bit (byte 0x80), zero bytes
up to 56 modulo 64, then the bit length in 8 big-endian bytes. -/
def sha256Pad (m : List Nat) : List Nat :=
  let len := m.length
  let zeros := (119 - len % 64) % 64
  let bits := 8 * len
  m ++ 0x80 :: List.replicate zeros 0 ++
    [bits >>> 56 &&& 255, bits >>> 48 &&& 255, bits >>> 40 &&& 255,
     bits >>> 32 &&& 255, bits >>> 24 &&& 255, bits >>> 16 &&& 255,
     bits >>> 8 &&& 255, bits &&& 255]

def chunksGo : Nat → List Nat → List (List Nat)
  | 0, _ => []
  | _ + 1, [] => []
  | fuel + 1, l => l.take 64 :: chunksGo fuel (l.drop 64)

def chunks64 (l : List Nat) : List (List Nat) :=
  chunksGo l.length l

def bytesToWords : List Nat → List Nat
  | b0 :: b1 :: b2 :: b3 :: rest =>
    ((((b0 <<< 8) ||| b1) <<< 8 ||| b2) <<< 8 ||| b3) :: bytesToWords rest
  | _ => []

/-- Message-schedule extension of FIPS 180-4 section 6.2.2 step 1. -/
def sha256Schedule (w16 : List Nat) : List Nat :=
  (List.range 48).foldl (fun w _ =>
    let t := w.length
    w ++ [u32 (sigmaS1 (w.getD (t - 2) 0) + w.getD (t - 7) 0 +
               sigmaS0 (w.getD (t - 15) 0) + w.getD (t - 16) 0)]) w16

def sha256Round (st : Sha256Digest) (kw : Nat × Nat) : Sha256Digest :=
  let t1 := u32 (st.d7 + sigmaB1 st.d4 + chFn st.d4 st.d5 st.d6 + kw.1 + kw.2)
  let t2 := u32 (sigmaB0 st.d0 + majFn st.d0 st.d1 st.d2)
  ⟨u32 (t1 + t2), st.d0, st.d1, st.d2, u32 (st.d3 + t1), st.d4, st.d5, st.d6⟩

def sha256Compress (h : Sha256Digest) (chunk : List Nat) : Sha256Digest :=
  let w := sha256Schedule (bytesToWords chunk)
  let f := (sha256K.zip w).foldl sha256Round h
  ⟨u32 (h.d0 + f.d0), u32 (h.d1 + f.d1), u32 (h.d2 + f.d2), u32 (h.d3 + f.d3),
   u32 (h.d4 + f.d4), u32 (h.d5 + f.d5), u32 (h.d6 + f.d6), u32 (h.d7 + f.d7)⟩

def wordBytes (w : Nat) : List Nat :=
  [w >>> 24 &&& 255, w >>> 16 &&& 255, w >>> 8 &&& 255, w &&& 255]

/-- SHA-256 digest bytes of a byte list. -/
def sha256Bytes (msg : List Nat) : List Nat :=
  let d := (chunks64 (sha256Pad msg)).foldl sha256Compress sha256Init
  wordBytes d.d0 ++ wordBytes d.d1 ++ wordBytes d.d2 ++ wordBytes d.d3 ++
    wordBytes d.d4 ++ wordBytes d.d5 ++ wordBytes d.d6 ++ wordBytes d.d7

/-- One lowercase hex digit, as produced by the JS number toString with
radix sixteen. -/
def hexDigitChar (n : Nat) : Char :=
  if n < 10 then Char.ofNat (48 + n) else Char.ofNat (87 + n)

/-- Two-digit lowercase hex of one byte (toString 16 left-padded with a
zero, script.js 275). -/
def byteToHex (b : Nat) : List Char :=
  [hexDigitChar (b / 16), hexDigitChar (b % 16)]

/-- digestMessage, script.js 271-277: SHA-256 of the UTF-8 encoding of the
message, printed as 64 lowercase hex characters. -/
def digestMessage (s : String) : String :=
  String.mk ((sha256Bytes (strUtf8 s)).map byteToHex).flatten

/-- The id-source string of processEarthquake, script.js 3136-3138: the raw
event time (the JS template literal prints a missing time as the word
undefined) and the hypocenter name with the unknown placeholder for a
missing or empty name, joined by an underscore. -/
def processIdSource (q : Quake) : String :=
  (match q.time with
   | some t => t
   | none => "undefined") ++ "_" ++
  (match q.hypocenter with
   | some h =>
     match h.name with
     | some n => if n = "" then "不明" else n
     | none => "不明"
   | none => "不明")

/-- The synthetic Event id of processEarthquake, script.js 3133-3139; the
JS code throws on a report without an earthquake object (modelled as none),
which cannot happen for the dedup output it is applied to. -/
def processEarthquakeId (r : Report) : Option String :=
  r.earthquake.map (fun q => digestMessage (processIdSource q))

/-! ## Concrete inputs used by the counterexamples and witnesses -/

/-- Representative dictionary key set for the municipality-resolution
examples: the prefecture name that the reference dataset carries plus the
two city keys the spec examples assume. -/
def demoKanaKeys : List (List Char) :=
  ["北海道".data, "釧路市".data, "栃木市".data]

def cx1RepA : Report :=
  { code := 551
    earthquake := some
      { time := some "a_b"
        hypocenter := some { name := some "c", magnitude := none, depth := none }
        maxScale := some 30
        domesticTsunami := some "None" }
    points := none
    eventId := "u1" }

def cx1RepB : Report :=
  { code := 551
    earthquake := some
      { time := some "a"
        hypocenter := some { name := some "b_c", magnitude := none, depth := none }
        maxScale := some 30
        domesticTsunami := some "None" }
    points := none
    eventId := "u2" }

def c1wA : Report :=
  { code := 551
    earthquake := some
      { time := some "2025-01-01T00:00:00+09:00"
        hypocenter := some { name := some "震源A", magnitude := some 5, depth := some 10 }
        maxScale := some 30
        domesticTsunami := some "None" }
    points := none
    eventId := "uA" }

def c1wB : Report :=
  { code := 551
    earthquake := some
      { time := some "2025-01-02T12:00:00+09:00"
        hypocenter := some { name := some "震源B", magnitude := some 6, depth := some 20 }
        maxScale := some 40
        domesticTsunami := some "None" }
    points := none
    eventId := "uB" }

def cx2RepA : Report :=
  { code := 551
    earthquake := some
      { time := some "2011-03-11T14:46:00+09:00"
        hypocenter := some { name := some "三陸沖", magnitude := some 9, depth := some 24 }
        maxScale := some 70
        domesticTsunami := some "MajorWarning" }
    points := none
    eventId := "v1" }

def cx2RepB : Report :=
  { code := 551
    earthquake := some
      { time := some "2011-03-11T14:46:00+09:00"
        hypocenter := some { name := some "三陸沖", magnitude := some 9, depth := some 24 }
        maxScale := some 60
        domesticTsunami := some "MajorWarning" }
    points := some [{ pref := "宮城県", addr := "栗原市築館", scale := 70, isArea := false }]
    eventId := "v2" }

def c2wA : Report :=
  { code := 551
    earthquake := some
      { time := some "2011-03-11T14:46:00+09:00"
        hypocenter := some { name := some "三陸沖", magnitude := none, depth := none }
        maxScale := some 60
        domesticTsunami := some "Checking" }
    points := none
    eventId := "w1" }

def c2wB : Report :=
  { code := 551
    earthquake := some
      { time := some "2011-03-11T14:46:00+09:00"
        hypocenter := some { name := some "三陸沖", magnitude := some 9, depth := some 24 }
        maxScale := some 70
        domesticTsunami := some "MajorWarning" }
    points := some [{ pref := "宮城県", addr := "栗原市築館", scale := 70, isArea := false }]
    eventId := "w2" }

def c3wA : Report :=
  { code := 551
    earthquake := some
      { time := some "2024-01-01T16:10:00+09:00"
        hypocenter := some { name := some "能登半島沖", magnitude := some 7, depth := some 16 }
        maxScale := some 70
        domesticTsunami := some "Warning" }
    points := none
    eventId := "n1" }

def c3wB : Report :=
  { code := 551
    earthquake := some
      { time := some "2024-01-01T16:10:00+09:00"
        hypocenter := some { name := some "能登半島沖", magnitude := some 7, depth := some 16 }
        maxScale := some 70
        domesticTsunami := some "Warning" }
    points := some [{ pref := "石川県", addr := "輪島市", scale := 70, isArea := false },
                    { pref := "石川県", addr := "志賀町", scale := 70, isArea := false }]
    eventId := "n2" }

def cx4InfoA : TsunamiInfo :=
  { eventId := "1001", forecasts := some [{ grade := "Warning", areaName := "Y" }] }

def cx4InfoB : TsunamiInfo :=
  { eventId := "1001", forecasts := some [{ grade := "Advisory", areaName := "X" }] }

def c5Rep : Report :=
  { code := 551
    earthquake := some
      { time := some "2011-03-11T14:46:00+09:00"
        hypocenter := some { name := some "三陸沖", magnitude := some 9, depth := some 24 }
        maxScale := some 70
        domesticTsunami := some "MajorWarning" }
    points := none
    eventId := "upstream-99" }

/-! # Theorems -/

/-! ## PaginationEngine properties -/

theorem paginateGo_flatten {α : Type} (fits : List α → Bool) :
    ∀ (items buf : List α), (paginateGo fits items buf).flatten = buf ++ items := by
  intro items
  induction items with
  | nil =>
    intro buf
    cases buf <;> simp [paginateGo]
  | cons x xs ih =>
    intro buf
    cases buf with
    | nil => cases hf : fits [x] <;> simp [paginateGo, hf, ih]
    | cons y ys => cases hf : fits (y :: (ys ++ [x])) <;> simp [paginateGo, hf, ih]

theorem paginateGo_ne_nil {α : Type} (fits : List α → Bool) :
    ∀ (items buf : List α) (p : List α), p ∈ paginateGo fits items buf → p ≠ [] := by
  intro items
  induction items with
  | nil =>
    intro buf p hp
    cases buf <;> simp [paginateGo] at hp
    subst hp
    simp
  | cons x xs ih =>
    intro buf p hp
    cases buf with
    | nil =>
      cases hf : fits [x] <;> simp [paginateGo, hf] at hp <;> exact ih [x] p hp
    | cons y ys =>
      cases hf : fits (y :: (ys ++ [x]))
      · simp [paginateGo, hf] at hp
        rcases hp with rfl | hp
        · simp
        · exact ih [x] p hp
      · simp [paginateGo, hf] at hp
        exact ih (y :: (ys ++ [x])) p hp

theorem paginateGo_fits {α : Type} (fits : List α → Bool) :
    ∀ (items buf : List α),
      (buf = [] ∨ fits buf = true ∨ buf.length = 1) →
      ∀ p ∈ paginateGo fits items buf, fits p = true ∨ p.length = 1 := by
  intro items
  induction items with
  | nil =>
    intro buf hinv p hp
    cases buf <;> simp [paginateGo] at hp
    subst hp
    rcases hinv with h | h
    · simp at h
    · exact h
  | cons x xs ih =>
    intro buf hinv p hp
    cases buf with
    | nil =>
      cases hf : fits [x] <;> simp [paginateGo, hf] at hp <;>
        exact ih [x] (Or.inr (Or.inr rfl)) p hp
    | cons y ys =>
      cases hf : fits (y :: (ys ++ [x]))
      · simp [paginateGo, hf] at hp
        rcases hp with rfl | hp
        · rcases hinv with h | h
          · simp at h
          · exact h
        · exact ih [x] (Or.inr (Or.inr rfl)) p hp
      · simp [paginateGo, hf] at hp
        refine ih (y :: (ys ++ [x])) (Or.inr (Or.inl ?_)) p hp
        simpa using hf

/-- Claim C9: for every ordered input list of display items and every fits
predicate, pagination never divides one item across two pages (items are
atomic and every produced page is a non-empty block of them), and
concatenating all produced pages in order reproduces the input list
exactly; an empty input list produces zero pages. -/
theorem claim9_pagination_exact {α : Type} (fits : List α → Bool) (items : List α) :
    paginate fits ([] : List α) = [] ∧
    (paginate fits items).flatten = items ∧
    ∀ p ∈ paginate fits items, p ≠ [] := by
  refine ⟨rfl, ?_, ?_⟩
  · simpa using paginateGo_flatten fits items []
  · intro p hp
    exact paginateGo_ne_nil fits items [] p hp

/-- Claim C10: every page produced by the greedy pagination satisfies the
fits predicate, except possibly a page that contains exactly one oversized
item; the definition is total, so pagination terminates on every input. -/
theorem claim10_pagination_fits {α : Type} (fits : List α → Bool) (items : List α)
    (p : List α) (hp : p ∈ paginate fits items) :
    fits p = true ∨ p.length = 1 :=
  paginateGo_fits fits items [] (Or.inl rfl) p hp

/-- Witness for claim C10 at a concrete fits function and item list: the
first page of splitting two items under a one-item budget. -/
theorem claim10_pagination_fits_witness :
    (fun l : List String => decide (l.length ≤ 1)) ["a"] = true ∨
      (["a"] : List String).length = 1 :=
  claim10_pagination_fits (fun l : List String => decide (l.length ≤ 1))
    ["a", "b"] ["a"] (by decide)

/-! ## KanaLookup properties -/

/-- Counterexample to claim C6 as stated: for the empty composite key the
falsy-argument guard at script.js 116 returns the empty string before the
override table is consulted, so an override entry for the empty key with a
non-empty value is not returned. -/
theorem claim6_override_counterexample :
    getKana [("", "x")] [] "" = "" ∧
    lookupAssoc [("", "x")] "" = some "x" ∧
    ("x" : String) ≠ "" := by
  refine ⟨rfl, rfl, by decide⟩

/-- Claim C6, amended to non-empty composite keys: an override entry for
the exact key is returned immediately, even when its value is the empty
string and whatever the base dictionary holds; and when no override exists
and neither the extracted name nor its parenthesis-stripped form is in the
base dictionary, the result is the empty string.  The function is total, so
it never throws. -/
theorem claim6_override_amended (manual dict : List (String × String)) (kanji : String)
    (hk : kanji ≠ "") :
    (∀ v, lookupAssoc manual kanji = some v → getKana manual dict kanji = v) ∧
    (lookupAssoc manual kanji = none →
      lookupAssoc dict (kanaLookupName kanji) = none →
      lookupAssoc dict (stripParen (kanaLookupName kanji)) = none →
      getKana manual dict kanji = "") := by
  constructor
  · intro v hv
    simp [getKana, hk, hv]
  · intro h1 h2 h3
    simp [getKana, hk, h1, h2, h3, truthyOr]
    rfl

/-- Witness for claim C6 at the spec's own example: an explicit empty
override for the Fukuoka ward key wins over a base-dictionary reading, and
a key absent from both tables resolves to the empty string. -/
theorem claim6_override_amended_witness :
    getKana [("福岡県_福岡市早良区", "")] [("福岡市早良区", "ふくおかしさわらく")]
      "福岡県_福岡市早良区" = "" ∧
    getKana [] [] "架空県_架空市" = "" :=
  ⟨(claim6_override_amended [("福岡県_福岡市早良区", "")]
      [("福岡市早良区", "ふくおかしさわらく")] "福岡県_福岡市早良区" (by decide)).1
      "" (by decide),
   (claim6_override_amended [] [] "架空県_架空市" (by decide)).2
      (by decide) (by decide) (by decide)⟩

/-! ## MunicipalityResolver properties -/

/-- Claim C7: the four literal municipality-resolution examples of the
spec, under a representative dictionary key set containing the keys the
examples assume.  The Kushiro address resolves through the direct
containment branch, the Sendai ward through the city-and-ward pattern, the
Sorachi county town through the county pattern, and the Tochigi address
through the longest-dictionary-prefix branch. -/
theorem claim7_municipality_examples :
    getMunicipality demoKanaKeys "北海道釧路市".data "北海道".data = "北海道_釧路市".data ∧
    getMunicipality demoKanaKeys "仙台市宮城野区".data "宮城県".data = "宮城県_仙台市宮城野区".data ∧
    getMunicipality demoKanaKeys "北海道空知郡南幌町".data "北海道".data = "北海道_空知郡南幌町".data ∧
    getMunicipality demoKanaKeys "栃木市入舟町".data "栃木県".data = "栃木県_栃木市".data := by
  refine ⟨by decide, by decide, by decide, by decide⟩

/-- Counterexample to claim C8 as stated: for an empty raw address (and a
non-empty prefecture) none of the resolver's heuristics matches, yet the
guard at script.js 288 substitutes a literal placeholder instead of
returning the prefecture and the raw address joined by an underscore. -/
theorem claim8_passthrough_counterexample :
    directMatchKey [] ([] : List Char) = none ∧
    cityWardMatch (stripPrefecture "栃木県".data []) = none ∧
    gunMatch (stripPrefecture "栃木県".data []) = none ∧
    forwardMatchKey [] (stripPrefecture "栃木県".data []) = none ∧
    cityTownVillageMatch (stripPrefecture "栃木県".data []) = none ∧
    getMunicipality [] [] "栃木県".data = "栃木県_観測点名不明".data ∧
    getMunicipality [] [] "栃木県".data ≠ "栃木県".data ++ '_' :: ([] : List Char) := by
  refine ⟨rfl, rfl, rfl, rfl, rfl, by decide, by decide⟩

/-- Claim C8, amended to non-empty inputs: whenever the raw address and the
prefecture are non-empty and none of the five heuristics (direct dictionary
containment, city-and-ward, county-and-town, dictionary prefix, generic
suffix) matches, the resolver returns the prefecture and the unchanged raw
address joined by an underscore; the function is total, so it never fails,
and for empty inputs it substitutes the literal placeholders. -/
theorem claim8_passthrough_amended (keys : List (List Char)) (addr pref : List Char)
    (ha : addr ≠ []) (hp : pref ≠ [])
    (h1 : directMatchKey keys addr = none)
    (h2 : cityWardMatch (stripPrefecture pref addr) = none)
    (h3 : gunMatch (stripPrefecture pref addr) = none)
    (h4 : forwardMatchKey keys (stripPrefecture pref addr) = none)
    (h5 : cityTownVillageMatch (stripPrefecture pref addr) = none) :
    getMunicipality keys addr pref = pref ++ '_' :: addr := by
  simp [getMunicipality, ha, hp, h1, h2, h3, h4, h5]

/-- Witness for claim C8: a plain address with no administrative suffix and
an empty dictionary falls through all heuristics. -/
theorem claim8_passthrough_amended_witness :
    getMunicipality [] "あいう".data "栃木県".data = "栃木県".data ++ '_' :: "あいう".data :=
  claim8_passthrough_amended [] "あいう".data "栃木県".data
    (by decide) (by decide) rfl rfl rfl rfl rfl

/-! ## EventAggregator: tsunami-forecast map properties -/

theorem mem_addToSet (s : List String) (x y : String) :
    x ∈ addToSet s y ↔ x ∈ s ∨ x = y := by
  by_cases hy : y ∈ s
  · simp only [addToSet]
    rw [if_pos (List.elem_iff.mpr hy)]
    constructor
    · exact Or.inl
    · rintro (h | rfl)
      · exact h
      · exact hy
  · simp only [addToSet]
    rw [if_neg (fun h => hy (List.elem_iff.mp h))]
    simp

theorem bucketStep_fst (acc : List String × List String × List String) (f : Forecast) :
    (bucketStep acc f).1 =
      if f.grade = "MajorWarning" ∧ f.areaName ≠ "" then addToSet acc.1 f.areaName
      else acc.1 := by
  by_cases h0 : f.areaName = ""
  · conv_rhs => rw [if_neg (fun hc => hc.2 h0)]
    simp only [bucketStep]
    rw [if_pos h0]
  · by_cases h1 : f.grade = "MajorWarning"
    · conv_rhs => rw [if_pos ⟨h1, h0⟩]
      simp only [bucketStep]
      rw [if_neg h0, if_pos h1]
    · conv_rhs => rw [if_neg (fun hc => h1 hc.1)]
      simp only [bucketStep]
      rw [if_neg h0, if_neg h1]
      by_cases h2 : f.grade = "Warning"
      · rw [if_pos h2]
      · rw [if_neg h2]
        by_cases h3 : f.grade = "Advisory"
        · rw [if_pos h3]
        · rw [if_neg h3]

theorem bucketStep_warning (acc : List String × List String × List String) (f : Forecast) :
    (bucketStep acc f).2.1 =
      if f.grade = "Warning" ∧ f.areaName ≠ "" then addToSet acc.2.1 f.areaName
      else acc.2.1 := by
  by_cases h0 : f.areaName = ""
  · conv_rhs => rw [if_neg (fun hc => hc.2 h0)]
    simp only [bucketStep]
    rw [if_pos h0]
  · by_cases h1 : f.grade = "MajorWarning"
    · conv_rhs => rw [if_neg (fun hc => absurd (h1.symm.trans hc.1) (by decide))]
      simp only [bucketStep]
      rw [if_neg h0, if_pos h1]
    · simp only [bucketStep]
      rw [if_neg h0, if_neg h1]
      by_cases h2 : f.grade = "Warning"
      · conv_rhs => rw [if_pos ⟨h2, h0⟩]
        rw [if_pos h2]
      · conv_rhs => rw [if_neg (fun hc => h2 hc.1)]
        rw [if_neg h2]
        by_cases h3 : f.grade = "Advisory"
        · rw [if_pos h3]
        · rw [if_neg h3]

theorem bucketStep_advisory (acc : List String × List String × List String) (f : Forecast) :
    (bucketStep acc f).2.2 =
      if f.grade = "Advisory" ∧ f.areaName ≠ "" then addToSet acc.2.2 f.areaName
      else acc.2.2 := by
  by_cases h0 : f.areaName = ""
  · conv_rhs => rw [if_neg (fun hc => hc.2 h0)]
    simp only [bucketStep]
    rw [if_pos h0]
  · by_cases h1 : f.grade = "MajorWarning"
    · conv_rhs => rw [if_neg (fun hc => absurd (h1.symm.trans hc.1) (by decide))]
      simp only [bucketStep]
      rw [if_neg h0, if_pos h1]
    · by_cases h2 : f.grade = "Warning"
      · conv_rhs => rw [if_neg (fun hc => absurd (h2.symm.trans hc.1) (by decide))]
        simp only [bucketStep]
        rw [if_neg h0, if_neg h1, if_pos h2]
      · simp only [bucketStep]
        rw [if_neg h0, if_neg h1, if_neg h2]
        by_cases h3 : f.grade = "Advisory"
        · conv_rhs => rw [if_pos ⟨h3, h0⟩]
          rw [if_pos h3]
        · conv_rhs => rw [if_neg (fun hc => h3 hc.1)]
          rw [if_neg h3]

theorem mem_bucketStep_mw (acc : List String × List String × List String) (f : Forecast)
    (x : String) :
    x ∈ (bucketStep acc f).1 ↔
      x ∈ acc.1 ∨ (f.grade = "MajorWarning" ∧ f.areaName = x ∧ x ≠ "") := by
  rw [bucketStep_fst]
  by_cases hc : f.grade = "MajorWarning" ∧ f.areaName ≠ ""
  · rw [if_pos hc, mem_addToSet]
    obtain ⟨hg, ha⟩ := hc
    constructor
    · rintro (h | rfl)
      · exact Or.inl h
      · exact Or.inr ⟨hg, rfl, ha⟩
    · rintro (h | ⟨-, rfl, -⟩)
      · exact Or.inl h
      · exact Or.inr rfl
  · rw [if_neg hc]
    constructor
    · exact Or.inl
    · rintro (h | ⟨hg, rfl, hx⟩)
      · exact h
      · exact absurd ⟨hg, hx⟩ hc

theorem mem_bucketStep_w (acc : List String × List String × List String) (f : Forecast)
    (x : String) :
    x ∈ (bucketStep acc f).2.1 ↔
      x ∈ acc.2.1 ∨ (f.grade = "Warning" ∧ f.areaName = x ∧ x ≠ "") := by
  rw [bucketStep_warning]
  by_cases hc : f.grade = "Warning" ∧ f.areaName ≠ ""
  · rw [if_pos hc, mem_addToSet]
    obtain ⟨hg, ha⟩ := hc
    constructor
    · rintro (h | rfl)
      · exact Or.inl h
      · exact Or.inr ⟨hg, rfl, ha⟩
    · rintro (h | ⟨-, rfl, -⟩)
      · exact Or.inl h
      · exact Or.inr rfl
  · rw [if_neg hc]
    constructor
    · exact Or.inl
    · rintro (h | ⟨hg, rfl, hx⟩)
      · exact h
      · exact absurd ⟨hg, hx⟩ hc

theorem mem_bucketStep_adv (acc : List String × List String × List String) (f : Forecast)
    (x : String) :
    x ∈ (bucketStep acc f).2.2 ↔
      x ∈ acc.2.2 ∨ (f.grade = "Advisory" ∧ f.areaName = x ∧ x ≠ "") := by
  rw [bucketStep_advisory]
  by_cases hc : f.grade = "Advisory" ∧ f.areaName ≠ ""
  · rw [if_pos hc, mem_addToSet]
    obtain ⟨hg, ha⟩ := hc
    constructor
    · rintro (h | rfl)
      · exact Or.inl h
      · exact Or.inr ⟨hg, rfl, ha⟩
    · rintro (h | ⟨-, rfl, -⟩)
      · exact Or.inl h
      · exact Or.inr rfl
  · rw [if_neg hc]
    constructor
    · exact Or.inl
    · rintro (h | ⟨hg, rfl, hx⟩)
      · exact h
      · exact absurd ⟨hg, hx⟩ hc

theorem foldl_bucketStep_mem (fs : List Forecast) :
    ∀ (acc : List String × List String × List String) (x : String),
      (x ∈ (fs.foldl bucketStep acc).1 ↔
        x ∈ acc.1 ∨ ∃ f ∈ fs, f.grade = "MajorWarning" ∧ f.areaName = x ∧ x ≠ "") ∧
      (x ∈ (fs.foldl bucketStep acc).2.1 ↔
        x ∈ acc.2.1 ∨ ∃ f ∈ fs, f.grade = "Warning" ∧ f.areaName = x ∧ x ≠ "") ∧
      (x ∈ (fs.foldl bucketStep acc).2.2 ↔
        x ∈ acc.2.2 ∨ ∃ f ∈ fs, f.grade = "Advisory" ∧ f.areaName = x ∧ x ≠ "") := by
  induction fs with
  | nil =>
    intro acc x
    simp
  | cons f fs ih =>
    intro acc x
    refine ⟨?_, ?_, ?_⟩
    · rw [List.foldl_cons, (ih (bucketStep acc f) x).1, mem_bucketStep_mw]
      constructor
      · rintro ((h | hf) | ⟨f', hf', hp⟩)
        · exact Or.inl h
        · exact Or.inr ⟨f, List.mem_cons_self f fs, hf⟩
        · exact Or.inr ⟨f', List.mem_cons_of_mem f hf', hp⟩
      · rintro (h | ⟨f', hf', hp⟩)
        · exact Or.inl (Or.inl h)
        · rcases List.mem_cons.mp hf' with rfl | hf'
          · exact Or.inl (Or.inr hp)
          · exact Or.inr ⟨f', hf', hp⟩
    · rw [List.foldl_cons, (ih (bucketStep acc f) x).2.1, mem_bucketStep_w]
      constructor
      · rintro ((h | hf) | ⟨f', hf', hp⟩)
        · exact Or.inl h
        · exact Or.inr ⟨f, List.mem_cons_self f fs, hf⟩
        · exact Or.inr ⟨f', List.mem_cons_of_mem f hf', hp⟩
      · rintro (h | ⟨f', hf', hp⟩)
        · exact Or.inl (Or.inl h)
        · rcases List.mem_cons.mp hf' with rfl | hf'
          · exact Or.inl (Or.inr hp)
          · exact Or.inr ⟨f', hf', hp⟩
    · rw [List.foldl_cons, (ih (bucketStep acc f) x).2.2, mem_bucketStep_adv]
      constructor
      · rintro ((h | hf) | ⟨f', hf', hp⟩)
        · exact Or.inl h
        · exact Or.inr ⟨f, List.mem_cons_self f fs, hf⟩
        · exact Or.inr ⟨f', List.mem_cons_of_mem f hf', hp⟩
      · rintro (h | ⟨f', hf', hp⟩)
        · exact Or.inl (Or.inl h)
        · rcases List.mem_cons.mp hf' with rfl | hf'
          · exact Or.inl (Or.inr hp)
          · exact Or.inr ⟨f', hf', hp⟩

theorem detailOfReport_mem (fs : List Forecast) (x : String) :
    (x ∈ (detailOfReport fs).majorWarning ↔
      ∃ f ∈ fs, f.grade = "MajorWarning" ∧ f.areaName = x ∧ x ≠ "") ∧
    (x ∈ (detailOfReport fs).warning ↔
      ∃ f ∈ fs, f.grade = "Warning" ∧ f.areaName = x ∧ x ≠ "") ∧
    (x ∈ (detailOfReport fs).advisory ↔
      ∃ f ∈ fs, f.grade = "Advisory" ∧ f.areaName = x ∧ x ≠ "") := by
  have h := foldl_bucketStep_mem fs ([], [], []) x
  simpa [detailOfReport, forecastBuckets] using h

theorem mapGet_mapSet {α : Type} (m : List (String × α)) (k : String) (v : α) (k' : String) :
    mapGet (mapSet m k v) k' = if k' = k then some v else mapGet m k' := by
  induction m with
  | nil =>
    by_cases h : k' = k
    · subst h
      simp [mapSet, mapGet]
    · have h2 : ¬ (k = k') := fun hh => h hh.symm
      simp [mapSet, mapGet, h, h2]
  | cons hd tl ih =>
    obtain ⟨ek, ev⟩ := hd
    by_cases he : ek = k
    · subst he
      by_cases h : k' = ek
      · subst h
        simp [mapSet, mapGet]
      · have h2 : ¬ (ek = k') := fun hh => h hh.symm
        simp [mapSet, mapGet, h, h2]
    · by_cases h : k' = k
      · subst h
        simp [mapSet, mapGet, he, ih]
      · simp [mapSet, mapGet, he, h, ih]

theorem foldl_tsunamiMapStep_lookup (infos : List TsunamiInfo) (k : String) :
    ∀ m, mapGet (infos.foldl tsunamiMapStep m) k =
      (match lastForecastsFor infos k with
       | some fs => some (detailOfReport fs)
       | none => mapGet m k) := by
  induction infos with
  | nil =>
    intro m
    simp [lastForecastsFor]
  | cons info rest ih =>
    intro m
    rw [List.foldl_cons, ih (tsunamiMapStep m info)]
    cases hrest : lastForecastsFor rest k with
    | some fs =>
      simp [lastForecastsFor, hrest]
    | none =>
      simp only [lastForecastsFor, hrest]
      cases hf : info.forecasts with
      | none => simp [tsunamiMapStep, hf]
      | some fs =>
        simp only [tsunamiMapStep, hf]
        rw [mapGet_mapSet]
        by_cases hk : info.eventId = k
        · rw [if_pos hk.symm]
          simp [hk]
        · rw [if_neg (fun hh => hk hh.symm)]
          simp [hk]

/-- Counterexample to claim C4 as stated: two forecast reports sharing the
correlation id 1001, the first carrying a Warning for area Y, the second an
Advisory for area X.  The claim predicts the union {Warning: {Y},
Advisory: {X}} with highestGrade Warning; the code at script.js 2965
overwrites the map entry per report, so only the last report survives: the
Warning set is empty and highestGrade is Advisory. -/
theorem claim4_grouping_counterexample :
    cx4InfoA.eventId = cx4InfoB.eventId ∧
    mapGet (buildTsunamiDetailsMap [cx4InfoA, cx4InfoB]) "1001" =
      some { majorWarning := [], warning := [], advisory := ["X"], highestGrade := "Advisory" } ∧
    ("Advisory" : String) ≠ "Warning" := by
  refine ⟨rfl, by decide, by decide⟩

/-- Claim C4, amended: the tsunami details are keyed by upstream
correlation id with last-report-wins overwriting, not a union across the
group; within the one surviving report, coastal-area names are unioned per
grade over that report's forecasts (names must be non-empty and graded with
one of the three bucket keys), and highestGrade is the first grade with a
non-empty set in the order MajorWarning, Warning, Advisory, else None — in
particular a single report with an Advisory for X and a Warning for Y
yields highestGrade Warning. -/
theorem claim4_tsunami_grouping_amended (infos : List TsunamiInfo) (k : String)
    (fs : List Forecast) (x : String) :
    (mapGet (buildTsunamiDetailsMap infos) k =
      (lastForecastsFor infos k).map detailOfReport) ∧
    (x ∈ (detailOfReport fs).majorWarning ↔
      ∃ f ∈ fs, f.grade = "MajorWarning" ∧ f.areaName = x ∧ x ≠ "") ∧
    (x ∈ (detailOfReport fs).warning ↔
      ∃ f ∈ fs, f.grade = "Warning" ∧ f.areaName = x ∧ x ≠ "") ∧
    (x ∈ (detailOfReport fs).advisory ↔
      ∃ f ∈ fs, f.grade = "Advisory" ∧ f.areaName = x ∧ x ≠ "") ∧
    ((detailOfReport fs).highestGrade =
      if (detailOfReport fs).majorWarning ≠ [] then "MajorWarning"
      else if (detailOfReport fs).warning ≠ [] then "Warning"
      else if (detailOfReport fs).advisory ≠ [] then "Advisory"
      else "None") ∧
    (detailOfReport [{ grade := "Advisory", areaName := "X" },
                     { grade := "Warning", areaName := "Y" }]).highestGrade = "Warning" := by
  refine ⟨?_, (detailOfReport_mem fs x).1, (detailOfReport_mem fs x).2.1,
    (detailOfReport_mem fs x).2.2, by simp [detailOfReport], by decide⟩
  rw [show buildTsunamiDetailsMap infos = infos.foldl tsunamiMapStep [] from rfl,
    foldl_tsunamiMapStep_lookup infos k []]
  cases lastForecastsFor infos k <;> simp [mapGet]

/-! ## EventAggregator: intensity dedup properties -/

theorem mapGet_eq_none_iff {α : Type} (m : List (String × α)) (k : String) :
    mapGet m k = none ↔ k ∉ keysOf m := by
  induction m with
  | nil => simp [mapGet, keysOf]
  | cons hd tl ih =>
    obtain ⟨ek, ev⟩ := hd
    by_cases h : ek = k
    · subst h
      simp [mapGet, keysOf]
    · simp only [mapGet, keysOf, List.map_cons, List.mem_cons]
      rw [if_neg h, ih]
      simp only [keysOf]
      constructor
      · intro hn
        rintro (rfl | hmem)
        · exact h rfl
        · exact hn hmem
      · intro hn hmem
        exact hn (Or.inr hmem)

theorem mapGet_append {α : Type} (m : List (String × α)) (k k' : String) (v : α) :
    mapGet (m ++ [(k', v)]) k =
      (match mapGet m k with
       | some x => some x
       | none => if k' = k then some v else none) := by
  induction m with
  | nil => simp [mapGet]
  | cons hd tl ih =>
    obtain ⟨ek, ev⟩ := hd
    by_cases h : ek = k
    · subst h
      simp [mapGet]
    · simp [mapGet, h, ih]

theorem keysOf_mapSet {α : Type} (m : List (String × α)) (k : String) (v : α)
    (h : mapGet m k ≠ none) : keysOf (mapSet m k v) = keysOf m := by
  induction m with
  | nil => simp [mapGet] at h
  | cons hd tl ih =>
    obtain ⟨ek, ev⟩ := hd
    by_cases he : ek = k
    · subst he
      simp [mapSet, keysOf]
    · have h' : mapGet tl k ≠ none := by
        simpa [mapGet, he] using h
      have htl := ih h'
      simp only [keysOf] at htl
      simp [mapSet, keysOf, he, htl]

theorem mergeKey?_eventId (r : Report) (x : String) :
    mergeKey? { r with eventId := x } = mergeKey? r := by
  cases r
  rfl

theorem pairKey?_eventId (r : Report) (x : String) :
    pairKey? { r with eventId := x } = pairKey? r := by
  cases r
  rfl

theorem foldl_dedupStep_lookup :
    ∀ (rs : List Report) (m : List (String × Report)) (k : String),
      mapGet (rs.foldl dedupStep m) k =
        foldKey (mapGet m k) (rs.filter (fun r => mergeKey? r == some k)) := by
  intro rs
  induction rs with
  | nil =>
    intro m k
    cases hg : mapGet m k <;> simp [foldKey, hg]
  | cons r rs ih =>
    intro m k
    rw [List.foldl_cons, ih (dedupStep m r) k]
    by_cases hr : mergeKey? r = some k
    · have hfil : (r :: rs).filter (fun r => mergeKey? r == some k) =
          r :: rs.filter (fun r => mergeKey? r == some k) := by
        simp [List.filter_cons, hr]
      rw [hfil]
      cases hg : mapGet m k with
      | none =>
        have hget : mapGet (dedupStep m r) k = some r := by
          simp only [dedupStep, hr, hg]
          rw [mapGet_append, hg]
          simp
        rw [hget]
        simp [foldKey]
      | some ex =>
        have hget : mapGet (dedupStep m r) k = some (mergeOne ex r) := by
          simp only [dedupStep, hr, hg]
          rw [mapGet_mapSet]
          simp
        rw [hget]
        simp [foldKey]
    · have hfil : (r :: rs).filter (fun r => mergeKey? r == some k) =
          rs.filter (fun r => mergeKey? r == some k) := by
        simp [List.filter_cons, hr]
      rw [hfil]
      have hstep : mapGet (dedupStep m r) k = mapGet m k := by
        cases hmk : mergeKey? r with
        | none => simp only [dedupStep, hmk]
        | some k' =>
          have hne : k' ≠ k := fun h => hr (h ▸ hmk)
          cases hg : mapGet m k' with
          | none =>
            simp only [dedupStep, hmk, hg]
            rw [mapGet_append]
            cases hq : mapGet m k <;> simp [hq, hne]
          | some ex =>
            simp only [dedupStep, hmk, hg]
            rw [mapGet_mapSet]
            rw [if_neg (fun h => hne h.symm)]
      rw [hstep]

theorem dedupe_lookup (rs : List Report) (k : String) :
    mapGet (dedupeEarthquakes rs) k =
      foldKey none (rs.filter (fun r => mergeKey? r == some k)) := by
  rw [show dedupeEarthquakes rs = rs.foldl dedupStep [] from rfl,
    foldl_dedupStep_lookup rs [] k]
  rfl

theorem dedupStep_keysOf_none (m : List (String × Report)) (r : Report)
    (hmk : mergeKey? r = none) : keysOf (dedupStep m r) = keysOf m := by
  simp only [dedupStep, hmk]

theorem dedupStep_keysOf_some (m : List (String × Report)) (r : Report) (k : String)
    (hmk : mergeKey? r = some k) :
    keysOf (dedupStep m r) = if k ∈ keysOf m then keysOf m else keysOf m ++ [k] := by
  cases hg : mapGet m k with
  | none =>
    have hk : k ∉ keysOf m := (mapGet_eq_none_iff m k).mp hg
    simp only [dedupStep, hmk, hg]
    rw [if_neg hk]
    simp [keysOf]
  | some ex =>
    have hk : k ∈ keysOf m := by
      by_contra hc
      rw [← mapGet_eq_none_iff] at hc
      rw [hc] at hg
      cases hg
    simp only [dedupStep, hmk, hg]
    rw [keysOf_mapSet m k _ (by rw [hg]; exact fun h => by cases h)]
    rw [if_pos hk]

theorem dedupe_keys_nodup :
    ∀ (rs : List Report) (m : List (String × Report)),
      (keysOf m).Nodup → (keysOf (rs.foldl dedupStep m)).Nodup := by
  intro rs
  induction rs with
  | nil => intro m h; exact h
  | cons r rs ih =>
    intro m h
    rw [List.foldl_cons]
    refine ih (dedupStep m r) ?_
    cases hmk : mergeKey? r with
    | none =>
      rw [dedupStep_keysOf_none m r hmk]
      exact h
    | some k =>
      rw [dedupStep_keysOf_some m r k hmk]
      by_cases hk : k ∈ keysOf m
      · rw [if_pos hk]
        exact h
      · rw [if_neg hk]
        simp [List.nodup_append, h, hk]

theorem dedupe_keys_mem :
    ∀ (rs : List Report) (m : List (String × Report)) (k : String),
      k ∈ keysOf (rs.foldl dedupStep m) ↔
        k ∈ keysOf m ∨ ∃ r ∈ rs, mergeKey? r = some k := by
  intro rs
  induction rs with
  | nil =>
    intro m k
    simp
  | cons r rs ih =>
    intro m k
    rw [List.foldl_cons, ih (dedupStep m r) k]
    cases hmk : mergeKey? r with
    | none =>
      rw [dedupStep_keysOf_none m r hmk]
      constructor
      · rintro (h | ⟨r', hr', hk'⟩)
        · exact Or.inl h
        · exact Or.inr ⟨r', List.mem_cons_of_mem r hr', hk'⟩
      · rintro (h | ⟨r', hr', hk'⟩)
        · exact Or.inl h
        · rcases List.mem_cons.mp hr' with rfl | hr'
          · rw [hmk] at hk'
            cases hk'
          · exact Or.inr ⟨r', hr', hk'⟩
    | some k' =>
      rw [dedupStep_keysOf_some m r k' hmk]
      have hsplit : k ∈ (if k' ∈ keysOf m then keysOf m else keysOf m ++ [k']) ↔
          k ∈ keysOf m ∨ k = k' := by
        by_cases hk : k' ∈ keysOf m
        · rw [if_pos hk]
          constructor
          · exact Or.inl
          · rintro (h | rfl)
            · exact h
            · exact hk
        · rw [if_neg hk]
          simp
      rw [hsplit]
      constructor
      · rintro ((h | rfl) | ⟨r', hr', hk'⟩)
        · exact Or.inl h
        · exact Or.inr ⟨r, List.mem_cons_self r rs, hmk⟩
        · exact Or.inr ⟨r', List.mem_cons_of_mem r hr', hk'⟩
      · rintro (h | ⟨r', hr', hk'⟩)
        · exact Or.inl (Or.inl h)
        · rcases List.mem_cons.mp hr' with rfl | hr'
          · rw [hmk] at hk'
            exact Or.inl (Or.inr (Option.some.inj hk').symm)
          · exact Or.inr ⟨r', hr', hk'⟩

theorem dedupe_keys_eventId :
    ∀ (rs : List Report) (x : String) (m m' : List (String × Report)),
      keysOf m' = keysOf m →
      keysOf ((rs.map (fun r => { r with eventId := x })).foldl dedupStep m') =
        keysOf (rs.foldl dedupStep m) := by
  intro rs
  induction rs with
  | nil => intro x m m' h; exact h
  | cons r rs ih =>
    intro x m m' h
    rw [List.map_cons, List.foldl_cons, List.foldl_cons]
    refine ih x (dedupStep m r) (dedupStep m' { r with eventId := x }) ?_
    cases hmk : mergeKey? r with
    | none =>
      rw [dedupStep_keysOf_none m r hmk,
        dedupStep_keysOf_none m' _ ((mergeKey?_eventId r x).trans hmk)]
      exact h
    | some k =>
      rw [dedupStep_keysOf_some m r k hmk,
        dedupStep_keysOf_some m' _ k ((mergeKey?_eventId r x).trans hmk), h]

theorem sep_inj (c : Char) :
    ∀ (l1 l2 m1 m2 : List Char), c ∉ l1 → c ∉ l2 →
      l1 ++ c :: m1 = l2 ++ c :: m2 → l1 = l2 ∧ m1 = m2 := by
  intro l1
  induction l1 with
  | nil =>
    intro l2 m1 m2 h1 h2 he
    cases l2 with
    | nil =>
      simp only [List.nil_append] at he
      injection he with hh ht
      exact ⟨rfl, ht⟩
    | cons d l2' =>
      simp only [List.nil_append, List.cons_append] at he
      injection he with hh ht
      rw [hh] at h2
      exact absurd (List.mem_cons_self d l2') h2
  | cons a l1' ih =>
    intro l2 m1 m2 h1 h2 he
    cases l2 with
    | nil =>
      simp only [List.nil_append, List.cons_append] at he
      injection he with hh ht
      rw [hh] at h1
      exact absurd (List.mem_cons_self c l1') h1
    | cons d l2' =>
      simp only [List.cons_append] at he
      injection he with hh ht
      subst hh
      have h1' : c ∉ l1' := fun hm => h1 (List.mem_cons_of_mem a hm)
      have h2' : c ∉ l2' := fun hm => h2 (List.mem_cons_of_mem a hm)
      obtain ⟨rfl, rfl⟩ := ih l2' m1 m2 h1' h2' ht
      exact ⟨rfl, rfl⟩

theorem underscore_key_inj (t1 n1 t2 n2 : String)
    (h1 : '_' ∉ t1.data) (h2 : '_' ∉ t2.data)
    (he : t1 ++ "_" ++ n1 = t2 ++ "_" ++ n2) : t1 = t2 ∧ n1 = n2 := by
  have hd := congrArg String.data he
  rw [String.data_append, String.data_append, String.data_append, String.data_append] at hd
  have hu : ("_" : String).data = ['_'] := rfl
  rw [hu] at hd
  rw [List.append_assoc, List.append_assoc, List.singleton_append, List.singleton_append] at hd
  obtain ⟨ht, hn⟩ := sep_inj '_' t1.data t2.data n1.data n2.data h1 h2 hd
  exact ⟨String.ext ht, String.ext hn⟩

theorem pairKey_to_mergeKey (r : Report) (t n : String)
    (hp : pairKey? r = some (t, n)) : mergeKey? r = some (t ++ "_" ++ n) := by
  obtain ⟨c, eq, pts, eid⟩ := r
  cases eq with
  | none => simp [pairKey?] at hp
  | some q =>
    obtain ⟨time, hypo, ms, dt⟩ := q
    cases time with
    | none => simp [pairKey?] at hp
    | some t' =>
      cases hypo with
      | none => simp [pairKey?] at hp
      | some h =>
        obtain ⟨name, mag, dep⟩ := h
        cases name with
        | none => simp [pairKey?] at hp
        | some n' =>
          simp only [pairKey?] at hp
          simp only [mergeKey?]
          split at hp
          · cases hp
          · rename_i hcond
            injection hp with hpair
            injection hpair with ha hb
            subst ha
            subst hb
            rw [if_neg hcond]

theorem mergeKey_to_pairKey (r : Report) (k : String)
    (hk : mergeKey? r = some k) :
    ∃ t n, pairKey? r = some (t, n) ∧ k = t ++ "_" ++ n := by
  obtain ⟨c, eq, pts, eid⟩ := r
  cases eq with
  | none => simp [mergeKey?] at hk
  | some q =>
    obtain ⟨time, hypo, ms, dt⟩ := q
    cases time with
    | none => simp [mergeKey?] at hk
    | some t' =>
      cases hypo with
      | none => simp [mergeKey?] at hk
      | some h =>
        obtain ⟨name, mag, dep⟩ := h
        cases name with
        | none => simp [mergeKey?] at hk
        | some n' =>
          simp only [mergeKey?] at hk
          split at hk
          · cases hk
          · rename_i hcond
            refine ⟨t', n', ?_, (Option.some.inj hk).symm⟩
            simp only [pairKey?]
            rw [if_neg hcond]

theorem noUnderscoreTime_spec (r : Report) (t n : String)
    (hu : noUnderscoreTime r = true) (hp : pairKey? r = some (t, n)) :
    '_' ∉ t.data := by
  unfold noUnderscoreTime at hu
  rw [hp] at hu
  intro hc
  simp only [Bool.not_eq_true'] at hu
  simp at hu
  exact hu hc

/-- Counterexample to claim C1 as stated: the merge key is the plain string
concatenation of the event time and the epicenter name with an underscore
between them (script.js 3005), so the distinct pairs (a_b, c) and (a, b_c)
collide on the same key a_b_c and the two reports are merged into a single
Event although their pairs differ — the only-if direction of the claim
fails. -/
theorem claim1_merge_key_counterexample :
    mergeKey? cx1RepA = mergeKey? cx1RepB ∧
    pairKey? cx1RepA ≠ pairKey? cx1RepB ∧
    (dedupeEarthquakes [cx1RepA, cx1RepB]).length = 1 := by
  refine ⟨by decide, by decide, by decide⟩

/-- Claim C1, amended: provided no report's event time contains the
underscore separator, the dedup pass produces exactly one map entry per
distinct merge key, a key is present exactly when some input report carries
it, two reports share a key exactly when they share the (event time,
epicenter name) pair, and the upstream event id plays no role: rewriting
every report's event id changes neither any merge key nor the key set of
the result. -/
theorem claim1_merge_key_amended (rs : List Report)
    (hu : ∀ r ∈ rs, noUnderscoreTime r = true) :
    (keysOf (dedupeEarthquakes rs)).Nodup ∧
    (∀ k, k ∈ keysOf (dedupeEarthquakes rs) ↔ ∃ r ∈ rs, mergeKey? r = some k) ∧
    (∀ r1, r1 ∈ rs → ∀ r2, r2 ∈ rs → ∀ k1 k2,
      mergeKey? r1 = some k1 → mergeKey? r2 = some k2 →
      (k1 = k2 ↔ pairKey? r1 = pairKey? r2)) ∧
    (∀ x, keysOf (dedupeEarthquakes (rs.map (fun r => { r with eventId := x }))) =
        keysOf (dedupeEarthquakes rs) ∧
      ∀ r : Report, mergeKey? { r with eventId := x } = mergeKey? r) := by
  refine ⟨?_, ?_, ?_, ?_⟩
  · exact dedupe_keys_nodup rs [] (by simp [keysOf])
  · intro k
    have h := dedupe_keys_mem rs [] k
    simpa [keysOf] using h
  · intro r1 h1 r2 h2 k1 k2 hk1 hk2
    obtain ⟨t1, n1, hp1, hkey1⟩ := mergeKey_to_pairKey r1 k1 hk1
    obtain ⟨t2, n2, hp2, hkey2⟩ := mergeKey_to_pairKey r2 k2 hk2
    subst hkey1
    subst hkey2
    constructor
    · intro he
      obtain ⟨rfl, rfl⟩ := underscore_key_inj t1 n1 t2 n2
        (noUnderscoreTime_spec r1 t1 n1 (hu r1 h1) hp1)
        (noUnderscoreTime_spec r2 t2 n2 (hu r2 h2) hp2) he
      rw [hp1, hp2]
    · intro he
      rw [hp1, hp2] at he
      injection he with hpair
      injection hpair with ha hb
      rw [ha, hb]
  · intro x
    exact ⟨dedupe_keys_eventId rs x [] [] rfl, fun r => mergeKey?_eventId r x⟩

/-- Witness for claim C1 at two concrete reports with distinct underscore
free times and epicenters. -/
theorem claim1_merge_key_amended_witness :
    (keysOf (dedupeEarthquakes [c1wA, c1wB])).Nodup ∧
    ("2025-01-01T00:00:00+09:00_震源A" ∈ keysOf (dedupeEarthquakes [c1wA, c1wB]) ↔
      ∃ r ∈ [c1wA, c1wB], mergeKey? r = some "2025-01-01T00:00:00+09:00_震源A") :=
  ⟨(claim1_merge_key_amended [c1wA, c1wB] (by decide)).1,
   (claim1_merge_key_amended [c1wA, c1wB] (by decide)).2.1 _⟩

theorem adoptHypocenter_points (ex eq : Report) :
    (adoptHypocenter ex eq).points = ex.points := by
  unfold adoptHypocenter
  repeat' split
  all_goals rfl

theorem raiseMaxScale_points (ex eq : Report) :
    (raiseMaxScale ex eq).points = ex.points := by
  unfold raiseMaxScale
  repeat' split
  all_goals rfl

theorem overwriteTsunami_points (ex eq : Report) :
    (overwriteTsunami ex eq).points = ex.points := by
  unfold overwriteTsunami
  repeat' split
  all_goals rfl

theorem mergeInto_points (ex eq : Report) :
    (mergeInto ex eq).points = ex.points := by
  unfold mergeInto
  rw [overwriteTsunami_points, raiseMaxScale_points, adoptHypocenter_points]

theorem adoptHypocenter_maxScale (ex eq : Report) :
    maxScaleOf (adoptHypocenter ex eq) = maxScaleOf ex := by
  obtain ⟨c2, eq2, p2, id2⟩ := eq
  cases eq2 with
  | none => rfl
  | some q2 =>
    obtain ⟨t2, hy2, ms2, dt2⟩ := q2
    cases hy2 with
    | none => rfl
    | some h2 =>
      obtain ⟨c1, eq1, p1, id1⟩ := ex
      cases eq1 with
      | none => rfl
      | some q1 =>
        obtain ⟨t1, hy1, ms1, dt1⟩ := q1
        cases hy1 with
        | none => rfl
        | some h1 =>
          simp only [adoptHypocenter]
          split <;> rfl

theorem overwriteTsunami_maxScale (ex eq : Report) :
    maxScaleOf (overwriteTsunami ex eq) = maxScaleOf ex := by
  obtain ⟨c2, eq2, p2, id2⟩ := eq
  cases eq2 with
  | none => rfl
  | some q2 =>
    obtain ⟨c1, eq1, p1, id1⟩ := ex
    cases eq1 with
    | none => rfl
    | some q1 =>
      simp only [overwriteTsunami]
      split <;> rfl

theorem raiseMaxScale_maxScale (ex eq : Report) :
    maxScaleOf (raiseMaxScale ex eq) =
      (match maxScaleOf ex, maxScaleOf eq with
       | some b, some a => some (max b a)
       | _, _ => maxScaleOf ex) := by
  obtain ⟨c2, eq2, p2, id2⟩ := eq
  cases eq2 with
  | none =>
    obtain ⟨c1, eq1, p1, id1⟩ := ex
    cases eq1 with
    | none => rfl
    | some q1 =>
      obtain ⟨t1, hy1, ms1, dt1⟩ := q1
      cases ms1 <;> rfl
  | some q2 =>
    obtain ⟨t2, hy2, ms2, dt2⟩ := q2
    obtain ⟨c1, eq1, p1, id1⟩ := ex
    cases eq1 with
    | none => rfl
    | some q1 =>
      obtain ⟨t1, hy1, ms1, dt1⟩ := q1
      cases ms2 with
      | none =>
        cases ms1 <;> rfl
      | some a =>
        cases ms1 with
        | none => rfl
        | some b =>
          simp only [raiseMaxScale]
          by_cases hlt : b < a
          · rw [if_pos hlt]
            simp only [maxScaleOf]
            rw [max_eq_right hlt.le]
          · rw [if_neg hlt]
            simp only [maxScaleOf]
            rw [max_eq_left (not_lt.mp hlt)]

theorem mergeInto_maxScale (ex eq : Report) :
    maxScaleOf (mergeInto ex eq) =
      (match maxScaleOf ex, maxScaleOf eq with
       | some b, some a => some (max b a)
       | _, _ => maxScaleOf ex) := by
  unfold mergeInto
  rw [overwriteTsunami_maxScale, raiseMaxScale_maxScale, adoptHypocenter_maxScale]

theorem mergeOne_of_nopoints (ex eq : Report) (h : eq.points = none) :
    mergeOne ex eq = mergeInto ex eq := by
  unfold mergeOne
  rw [if_neg]
  rw [h]
  simp

theorem mergeOne_of_expoints (ex eq : Report) (h : ex.points.isSome = true) :
    mergeOne ex eq = mergeInto ex eq := by
  unfold mergeOne
  rw [if_neg]
  intro hc
  rw [Bool.and_eq_true] at hc
  rw [Option.isNone_iff_eq_none] at hc
  rw [hc.1] at h
  cases h

theorem mergeOne_replace (ex eq : Report) (h1 : ex.points = none)
    (h2 : eq.points.isSome = true) : mergeOne ex eq = eq := by
  unfold mergeOne
  rw [if_pos]
  rw [Bool.and_eq_true, Option.isNone_iff_eq_none]
  exact ⟨h1, h2⟩

theorem foldl_mergeInto_points (l : List Report) :
    ∀ s : Report, (l.foldl mergeInto s).points = s.points := by
  induction l with
  | nil => intro s; rfl
  | cons r rest ih =>
    intro s
    rw [List.foldl_cons, ih (mergeInto s r), mergeInto_points]

theorem foldl_mergeOne_nopoints (l : List Report) :
    ∀ s : Report, (∀ r ∈ l, r.points = none) →
      l.foldl mergeOne s = l.foldl mergeInto s := by
  induction l with
  | nil => intro s _; rfl
  | cons r rest ih =>
    intro s h
    rw [List.foldl_cons, List.foldl_cons,
      mergeOne_of_nopoints s r (h r (List.mem_cons_self r rest))]
    exact ih (mergeInto s r) (fun r' hr' => h r' (List.mem_cons_of_mem r hr'))

theorem foldl_mergeOne_of_points (l : List Report) :
    ∀ s : Report, s.points.isSome = true →
      l.foldl mergeOne s = l.foldl mergeInto s := by
  induction l with
  | nil => intro s _; rfl
  | cons r rest ih =>
    intro s h
    rw [List.foldl_cons, List.foldl_cons, mergeOne_of_expoints s r h]
    refine ih (mergeInto s r) ?_
    rw [mergeInto_points]
    exact h

theorem foldl_mergeInto_maxScale (l : List Report) :
    ∀ (s : Report) (b : Int), maxScaleOf s = some b →
      maxScaleOf (l.foldl mergeInto s) = l.foldl maxScaleStep (some b) := by
  induction l with
  | nil => intro s b hb; simpa using hb
  | cons r rest ih =>
    intro s b hb
    rw [List.foldl_cons, List.foldl_cons]
    cases hr : maxScaleOf r with
    | none =>
      have hstep : maxScaleOf (mergeInto s r) = some b := by
        rw [mergeInto_maxScale, hb, hr]
      have hms : maxScaleStep (some b) r = some b := by
        simp [maxScaleStep, hr]
      rw [hms]
      exact ih (mergeInto s r) b hstep
    | some a =>
      have hstep : maxScaleOf (mergeInto s r) = some (max b a) := by
        rw [mergeInto_maxScale, hb, hr]
      have hms : maxScaleStep (some b) r = some (max b a) := by
        simp [maxScaleStep, hr]
      rw [hms]
      exact ih (mergeInto s r) (max b a) hstep

theorem dropWhile_head_not {α : Type} (p : α → Bool) :
    ∀ (l : List α) (a : α) (t : List α), l.dropWhile p = a :: t → p a = false := by
  intro l
  induction l with
  | nil => intro a t h; cases h
  | cons x xs ih =>
    intro a t h
    cases hpx : p x with
    | true =>
      simp only [List.dropWhile, hpx] at h
      exact ih a t h
    | false =>
      simp only [List.dropWhile, hpx] at h
      injection h with h1 h2
      subst h1
      exact hpx

theorem passesMinScaleFilter_maxScale (r : Report)
    (h : passesMinScaleFilter r = true) : (maxScaleOf r).isSome = true := by
  obtain ⟨c, eq, pts, eid⟩ := r
  cases eq with
  | none => simp [passesMinScaleFilter] at h
  | some q =>
    obtain ⟨t, hy, ms, dt⟩ := q
    cases ms with
    | none => simp [passesMinScaleFilter] at h
    | some s => rfl

theorem maxScaleStep_none (s : Report) (b : Int) (hb : maxScaleOf s = some b) :
    maxScaleStep none s = some b := by
  simp [maxScaleStep, hb]

theorem foldl_mergeOne_maxScale (r0 : Report) (rest : List Report)
    (hpres : ∀ r ∈ r0 :: rest, (maxScaleOf r).isSome = true) :
    maxScaleOf (rest.foldl mergeOne r0) = maxScaleMax (activeReports r0 rest) := by
  by_cases h0 : r0.points.isSome = true
  · have hact : activeReports r0 rest = r0 :: rest := by
      simp only [activeReports]
      rw [if_pos h0]
    obtain ⟨b, hb⟩ := Option.isSome_iff_exists.mp (hpres r0 (List.mem_cons_self r0 rest))
    rw [foldl_mergeOne_of_points rest r0 h0, foldl_mergeInto_maxScale rest r0 b hb, hact]
    simp only [maxScaleMax, List.foldl_cons]
    rw [maxScaleStep_none r0 b hb]
  · have h0' : r0.points = none := by
      cases hp : r0.points
      · rfl
      · rw [hp] at h0
        simp at h0
    cases hdrop : rest.dropWhile (fun r => r.points.isNone) with
    | nil =>
      have hact : activeReports r0 rest = r0 :: rest := by
        simp only [activeReports]
        rw [if_neg h0, hdrop]
      have hall : ∀ r ∈ rest, r.points = none := by
        intro r hr
        exact Option.isNone_iff_eq_none.mp (List.dropWhile_eq_nil_iff.mp hdrop r hr)
      obtain ⟨b, hb⟩ := Option.isSome_iff_exists.mp (hpres r0 (List.mem_cons_self r0 rest))
      rw [foldl_mergeOne_nopoints rest r0 hall, foldl_mergeInto_maxScale rest r0 b hb, hact]
      simp only [maxScaleMax, List.foldl_cons]
      rw [maxScaleStep_none r0 b hb]
    | cons rp tail =>
      have hact : activeReports r0 rest = rp :: tail := by
        simp only [activeReports]
        rw [if_neg h0, hdrop]
      have hsplit : rest.takeWhile (fun r => r.points.isNone) ++ rp :: tail = rest := by
        rw [← hdrop]
        exact List.takeWhile_append_dropWhile _ _
      have hrp_false : (fun r : Report => r.points.isNone) rp = false :=
        dropWhile_head_not _ rest rp tail hdrop
      have hrp : rp.points.isSome = true := by
        cases hp : rp.points
        · simp only at hrp_false
          rw [hp] at hrp_false
          simp at hrp_false
        · rfl
      have hrp_mem : rp ∈ rest := by
        rw [← hsplit]
        exact List.mem_append_right _ (List.mem_cons_self rp tail)
      obtain ⟨b, hb⟩ :=
        Option.isSome_iff_exists.mp (hpres rp (List.mem_cons_of_mem r0 hrp_mem))
      have hpre : ∀ r ∈ rest.takeWhile (fun r => r.points.isNone), r.points = none := by
        intro r hr
        have hsat := List.mem_takeWhile_imp hr
        simp only at hsat
        exact Option.isNone_iff_eq_none.mp hsat
      conv_lhs => rw [← hsplit]
      rw [List.foldl_append, foldl_mergeOne_nopoints _ r0 hpre, List.foldl_cons]
      have hs1 : ((rest.takeWhile (fun r => r.points.isNone)).foldl mergeInto r0).points
          = none := by
        rw [foldl_mergeInto_points]
        exact h0'
      rw [mergeOne_replace _ rp hs1 hrp, foldl_mergeOne_of_points tail rp hrp,
        foldl_mergeInto_maxScale tail rp b hb, hact]
      simp only [maxScaleMax, List.foldl_cons]
      rw [maxScaleStep_none rp b hb]

theorem mergeOne_raises (ex eq : Report) (a b : Int)
    (hex : maxScaleOf ex = some b) (heq : maxScaleOf eq = some a) (hlt : b < a) :
    maxScaleOf (mergeOne ex eq) = some a := by
  unfold mergeOne
  by_cases hc : (ex.points.isNone && eq.points.isSome) = true
  · rw [if_pos hc]
    exact heq
  · rw [if_neg hc, mergeInto_maxScale, hex, heq]
    simp only []
    rw [max_eq_right hlt.le]

theorem foldl_mergeOne_points_replace (r0 : Report) (rest : List Report) (rp : Report)
    (tail : List Report) (hseed : r0.points = none)
    (hdrop : rest.dropWhile (fun r => r.points.isNone) = rp :: tail) :
    (rest.foldl mergeOne r0).points = rp.points ∧ rp.points.isSome = true := by
  have hsplit : rest.takeWhile (fun r => r.points.isNone) ++ rp :: tail = rest := by
    rw [← hdrop]
    exact List.takeWhile_append_dropWhile _ _
  have hrp_false : (fun r : Report => r.points.isNone) rp = false :=
    dropWhile_head_not _ rest rp tail hdrop
  have hrp : rp.points.isSome = true := by
    cases hp : rp.points
    · simp only at hrp_false
      rw [hp] at hrp_false
      simp at hrp_false
    · rfl
  have hpre : ∀ r ∈ rest.takeWhile (fun r => r.points.isNone), r.points = none := by
    intro r hr
    have hsat := List.mem_takeWhile_imp hr
    simp only at hsat
    exact Option.isNone_iff_eq_none.mp hsat
  refine ⟨?_, hrp⟩
  conv_lhs => rw [← hsplit]
  rw [List.foldl_append, foldl_mergeOne_nopoints _ r0 hpre, List.foldl_cons]
  have hs1 : ((rest.takeWhile (fun r => r.points.isNone)).foldl mergeInto r0).points
      = none := by
    rw [foldl_mergeInto_points]
    exact hseed
  rw [mergeOne_replace _ rp hs1 hrp, foldl_mergeOne_of_points tail rp hrp,
    foldl_mergeInto_points]

/-- Counterexample to claim C2 as stated: two same-key reports, the first
with maxScale 70 and no points, the second with maxScale 60 and a points
array.  The points-preference at script.js 3011-3013 replaces the map entry
wholesale with the second report, and the subsequent maxScale raise at
script.js 3019-3021 mutates the evicted object, so the surviving Event has
maxScale 60 although the maximum over the key's reports is 70. -/
theorem claim2_max_scale_counterexample :
    mergeKey? cx2RepA = mergeKey? cx2RepB ∧
    maxScaleOf cx2RepA = some 70 ∧
    maxScaleOf cx2RepB = some 60 ∧
    (dedupeEarthquakes [cx2RepA, cx2RepB]).map (fun p => maxScaleOf p.2) = [some 60] := by
  refine ⟨by decide, by decide, by decide, by decide⟩

/-- Claim C2, amended: a subsequent same-key report with a strictly greater
maxScale always raises the Event's maxScale to it (also through a
points-replacement step, where the replacing report itself carries the
greater value); consequently the Event's maxScale equals the maximum over
the active report segment: all same-key reports when the seed carries
points or no follower does, and otherwise the first points-carrying
follower and everything after it — reports merged before the wholesale
points replacement, including a higher earlier maxScale, are discarded. -/
theorem claim2_max_scale_amended (rs : List Report) (k : String) (r0 : Report)
    (rest : List Report)
    (hsplit : rs.filter (fun r => mergeKey? r == some k) = r0 :: rest)
    (hflt : ∀ r ∈ rs, passesMinScaleFilter r = true) :
    mapGet (dedupeEarthquakes rs) k = some (rest.foldl mergeOne r0) ∧
    maxScaleOf (rest.foldl mergeOne r0) = maxScaleMax (activeReports r0 rest) ∧
    (∀ ex eq : Report, ∀ a b : Int, maxScaleOf ex = some b → maxScaleOf eq = some a →
      b < a → maxScaleOf (mergeOne ex eq) = some a) := by
  refine ⟨?_, ?_, fun ex eq a b hex heq hlt => mergeOne_raises ex eq a b hex heq hlt⟩
  · rw [dedupe_lookup rs k, hsplit]
    simp [foldKey]
  · refine foldl_mergeOne_maxScale r0 rest ?_
    intro r hr
    have hmem : r ∈ rs.filter (fun r => mergeKey? r == some k) := by
      rw [hsplit]
      exact hr
    exact passesMinScaleFilter_maxScale r (hflt r (List.mem_of_mem_filter hmem))

/-- Witness for claim C2 at the spec's duplicate-revision scenario: a
60-no-points report followed by a 70-with-points report merges to the
70-with-points Event. -/
theorem claim2_max_scale_amended_witness :
    mapGet (dedupeEarthquakes [c2wA, c2wB]) "2011-03-11T14:46:00+09:00_三陸沖" =
      some ([c2wB].foldl mergeOne c2wA) ∧
    maxScaleOf ([c2wB].foldl mergeOne c2wA) = maxScaleMax (activeReports c2wA [c2wB]) :=
  ⟨(claim2_max_scale_amended [c2wA, c2wB] "2011-03-11T14:46:00+09:00_三陸沖" c2wA [c2wB]
      (by decide) (by decide)).1,
   (claim2_max_scale_amended [c2wA, c2wB] "2011-03-11T14:46:00+09:00_三陸沖" c2wA [c2wB]
      (by decide) (by decide)).2.1⟩

/-- Claim C3: when the Event seeded for a merge key has no observation
points and some same-key follower supplies points, the merged Event's
points list is exactly the points list of the first points-carrying
follower (the wholesale replacement of script.js 3011-3013), never a union
of partial point lists. -/
theorem claim3_points_replacement (rs : List Report) (k : String) (r0 : Report)
    (rest : List Report) (rp : Report) (tail : List Report)
    (hsplit : rs.filter (fun r => mergeKey? r == some k) = r0 :: rest)
    (hseed : r0.points = none)
    (hdrop : rest.dropWhile (fun r => r.points.isNone) = rp :: tail) :
    mapGet (dedupeEarthquakes rs) k = some (rest.foldl mergeOne r0) ∧
    (rest.foldl mergeOne r0).points = rp.points ∧
    rp.points.isSome = true := by
  refine ⟨?_, (foldl_mergeOne_points_replace r0 rest rp tail hseed hdrop).1,
    (foldl_mergeOne_points_replace r0 rest rp tail hseed hdrop).2⟩
  rw [dedupe_lookup rs k, hsplit]
  simp [foldKey]

/-- Witness for claim C3: a pointless seed followed by a same-key report
with two observation points merges to that report's points list. -/
theorem claim3_points_replacement_witness :
    mapGet (dedupeEarthquakes [c3wA, c3wB]) "2024-01-01T16:10:00+09:00_能登半島沖" =
      some ([c3wB].foldl mergeOne c3wA) ∧
    ([c3wB].foldl mergeOne c3wA).points = c3wB.points ∧
    c3wB.points.isSome = true :=
  ⟨(claim3_points_replacement [c3wA, c3wB] "2024-01-01T16:10:00+09:00_能登半島沖" c3wA
      [c3wB] c3wB [] (by decide) (by decide) (by decide)).1,
   (claim3_points_replacement [c3wA, c3wB] "2024-01-01T16:10:00+09:00_能登半島沖" c3wA
      [c3wB] c3wB [] (by decide) (by decide) (by decide)).2.1,
   (claim3_points_replacement [c3wA, c3wB] "2024-01-01T16:10:00+09:00_能登半島沖" c3wA
      [c3wB] c3wB [] (by decide) (by decide) (by decide)).2.2⟩

/-! ## Stable event id -/

set_option maxRecDepth 200000 in
theorem digestMessage_test_vector :
    digestMessage "abc" =
      "ba7816bf8f01cfea414140de5dae2223b00361a396177a9cb410ff61f20015ad" := by
  decide

/-- Claim C5: for every report carrying an earthquake object and a merge
key (so its time and epicenter name are present and non-empty), the
synthetic Event id is the digest of exactly the merge-key string, the
lowercase-hex SHA-256 of its UTF-8 encoding; the upstream event id does not
enter the computation, so rewriting it leaves the id unchanged, and the
function is deterministic, so identical inputs give identical ids across
runs and polls. -/
theorem claim5_event_id (r : Report) (q : Quake) (k : String)
    (hq : r.earthquake = some q) (hk : mergeKey? r = some k) :
    processEarthquakeId r = some (digestMessage k) ∧
    ∀ x, processEarthquakeId { r with eventId := x } = processEarthquakeId r := by
  constructor
  · unfold mergeKey? at hk
    rw [hq] at hk
    cases ht : q.time with
    | none =>
      simp only [ht] at hk
      cases q.hypocenter <;> cases hk
    | some t =>
      cases hh : q.hypocenter with
      | none =>
        simp only [ht, hh] at hk
        cases hk
      | some h =>
        cases hn : h.name with
        | none =>
          simp only [ht, hh, hn] at hk
          cases hk
        | some n =>
          simp only [ht, hh, hn] at hk
          split at hk
          · cases hk
          · rename_i hcond
            have hkk := Option.some.inj hk
            have hn' : ¬ n = "" := fun hne => hcond (Or.inr hne)
            unfold processEarthquakeId
            rw [hq]
            simp only [Option.map]
            rw [← hkk]
            have hsrc : processIdSource q = t ++ "_" ++ n := by
              simp only [processIdSource, ht, hh, hn]
              rw [if_neg hn']
            rw [hsrc]
  · intro x
    cases r
    rfl

set_option maxRecDepth 200000 in
/-- Witness for claim C5 at a concrete report: the id equals the SHA-256
digest of the key string, computed independently, and is unchanged under a
different upstream event id. -/
theorem claim5_event_id_witness :
    processEarthquakeId c5Rep =
      some "a9ccb6f1c8dab520cee086671d942f751feaa494afa832fad6284ee8ed3cacf1" ∧
    processEarthquakeId { c5Rep with eventId := "another-upstream-id" } =
      processEarthquakeId c5Rep := by
  constructor
  · have h := (claim5_event_id c5Rep
      { time := some "2011-03-11T14:46:00+09:00"
        hypocenter := some { name := some "三陸沖", magnitude := some 9, depth := some 24 }
        maxScale := some 70
        domesticTsunami := some "MajorWarning" }
      "2011-03-11T14:46:00+09:00_三陸沖" rfl (by decide)).1
    rw [h]
    decide
  · exact (claim5_event_id c5Rep
      { time := some "2011-03-11T14:46:00+09:00"
        hypocenter := some { name := some "三陸沖", magnitude := some 9, depth := some 24 }
        maxScale := some 70
        domesticTsunami := some "MajorWarning" }
      "2011-03-11T14:46:00+09:00_三陸沖" rfl (by decide)).2 "another-upstream-id"
